/-
Verification development for the directory-metadata extractor (src/index.js).

The program walks a directory tree rooted at a fixed "Documents" path,
collects one metadata record per discovered directory, and serializes the
collection to a CSV file and a JSON file.

Shallow embedding conventions:
* Filesystem paths are modelled as lists of path segments; the string form
  used in the serialized output joins segments with "/" (POSIX style).
  path.join(dir, name) becomes dir ++ [name]; path.relative is pathRelative.
* The filesystem is a tree of nodes; every node carries the metadata that
  fs.promises.lstat reports for it (lstat is link-aware: it describes the
  entry itself, never its target).  Date values are abstracted as their
  ISO-8601 rendering, which is all the program ever reads from them.
* The uuidv4() supply is modelled as a counter threaded through the scan:
  each call returns the next value of an injective fresh-identifier supply.
* The file store touched by the writer is a partial map from file names to
  contents; an append-mode stream appends to the existing contents, while
  fs.promises.writeFile replaces them.
-/
import Mathlib

/-- Metadata that lstat reports for one filesystem node: the fields of
fs.Stats that src/index.js reads (atime, mtime, uid, gid, mode).  The two
timestamps are kept in their ISO-8601 string form. -/
structure StatMeta where
  atime : String
  mtime : String
  uid : Nat
  gid : Nat
  mode : Nat
deriving Repr, DecidableEq

/-- A filesystem node: a plain file, a symbolic link (carrying the path its
resolution would yield), or a directory with a list of named children. -/
inductive FSNode where
  | file : StatMeta → FSNode
  | symlink : StatMeta → List String → FSNode
  | dir : StatMeta → List (String × FSNode) → FSNode

/-- fs.Stats.isDirectory() as reported by lstat: true only for a real
directory, false for a symlink even when its target is a directory. -/
def FSNode.isDirectory : FSNode → Bool
  | .dir _ _ => true
  | _ => false

/-- fs.Stats.isSymbolicLink() as reported by lstat. -/
def FSNode.isSymbolicLink : FSNode → Bool
  | .symlink _ _ => true
  | _ => false

/-- The StatMeta carried by a node (what lstat reports for the entry). -/
def FSNode.statMeta : FSNode → StatMeta
  | .file m => m
  | .symlink m _ => m
  | .dir m _ => m

/-- fs.promises.realpath on an entry: a symlink resolves to its stored
target, anything else resolves to its own (already canonical) path. -/
def realpathOf (node : FSNode) (ownPath : List String) : List String :=
  match node with
  | .symlink _ target => target
  | _ => ownPath

/-- const IGNORED_DIRECTORIES = ['.git', '.vscode', 'node_modules']. -/
def IGNORED_DIRECTORIES : List String := [".git", ".vscode", "node_modules"]

/-- String.prototype.startsWith(p): p's characters are a prefix of the
string's (stated on the character lists, structurally, so that concrete
scans evaluate inside the kernel). -/
def jsStartsWith (s p : String) : Bool := p.data.isPrefixOf s.data

/-- path.relative(f, t) on absolute segment paths: strip the common prefix,
then one ".." per remaining segment of f, followed by the rest of t. -/
def pathRelative : List String → List String → List String
  | [], t => t
  | f, [] => f.map (fun _ => "..")
  | a :: f, b :: t =>
    if a = b then pathRelative f t
    else ((a :: f).map (fun _ => "..")) ++ (b :: t)

/-- path.join of a directory path and a relative segment list. -/
def pathJoin (dir rel : List String) : List String := dir ++ rel

/-- Number.prototype.toString(8): the base-8 rendering of a Nat. -/
def octalString (n : Nat) : String := String.mk (Nat.toDigits 8 n)

/-- One metadata record, as built in getAllDirectoriesRecursively.  The
uuid field holds the value drawn from the fresh-identifier supply; the two
path fields keep the segment-list form, rendered to strings only at
serialization time. -/
structure DirectoryRecord where
  uuid : Nat
  name : String
  relative_path : List String
  absolute_path : List String
  last_accessed : String
  last_modified : String
  owner : Nat
  group : Nat
  permissions : String
deriving Repr, DecidableEq

/-- The record object literal of src/index.js lines 111-121, for the entry
named name whose lstat metadata is m, with the given uuid and paths. -/
def mkDirectoryMetadata (uuid : Nat) (name : String) (relPath absPath : List String)
    (m : StatMeta) : DirectoryRecord :=
  { uuid := uuid
    name := name
    relative_path := relPath
    absolute_path := absPath
    last_accessed := m.atime
    last_modified := m.mtime
    owner := m.uid
    group := m.gid
    permissions := octalString (m.mode &&& 0o777) }

mutual

/-- getAllDirectoriesRecursively(directoryPath, allDirectories) of
src/index.js lines 33-141, called on the node found at dirPath.  root is
the module constant DOCUMENTS_FOLDER_PATH (used by path.relative), acc is
the shared accumulator Set in insertion order, and ctr is the state of the
uuidv4 fresh-identifier supply.  readdir of a non-directory cannot occur in
an execution (the function is only ever applied to directories); such a
node contributes nothing. -/
def getAllDirectoriesRecursively (root : List String) (node : FSNode)
    (dirPath : List String) (acc : List DirectoryRecord) (ctr : Nat) :
    List DirectoryRecord × Nat :=
  match node with
  | .dir _ children => getAllDirectoriesLoop root children dirPath acc ctr
  | _ => (acc, ctr)
termination_by structural node

/-- The for-loop over the readdir listing (src/index.js lines 44-133).
For each entry: lstat it; if it is a directory, skip it when its name is
hidden or ignored, otherwise build its record (resolving a symlink to its
realpath first - a branch that is dead under lstat semantics) and recurse
into the resolved path.  Recursing into the resolved path is recursing into
the child node, since the resolved path equals the joined entry path in
every reachable case. -/
def getAllDirectoriesLoop (root : List String) (entries : List (String × FSNode))
    (dirPath : List String) (acc : List DirectoryRecord) (ctr : Nat) :
    List DirectoryRecord × Nat :=
  match entries with
  | [] => (acc, ctr)
  | (file, child) :: rest =>
    let filePath := dirPath ++ [file]
    if child.isDirectory then
      if jsStartsWith file "." || IGNORED_DIRECTORIES.contains file then
        getAllDirectoriesLoop root rest dirPath acc ctr
      else
        let directoryUUID := ctr
        let directoryAbsolutePath :=
          if child.isSymbolicLink then realpathOf child filePath else filePath
        let directoryRelativePath := pathRelative root directoryAbsolutePath
        let directoryMetadata :=
          mkDirectoryMetadata directoryUUID file directoryRelativePath
            directoryAbsolutePath child.statMeta
        let p := getAllDirectoriesRecursively root child directoryAbsolutePath
          (acc ++ [directoryMetadata]) (ctr + 1)
        getAllDirectoriesLoop root rest dirPath p.1 p.2
    else
      getAllDirectoriesLoop root rest dirPath acc ctr
termination_by structural entries

end

/-- The top-level scan: getAllDirectoriesRecursively(DOCUMENTS_FOLDER_PATH)
with an empty accumulator Set and a fresh uuid supply, where t is the tree
rooted at the Documents path. -/
def scanRun (root : List String) (t : FSNode) : List DirectoryRecord :=
  (getAllDirectoriesRecursively root t root [] 0).1

mutual

/-- Accumulator-free form of getAllDirectoriesRecursively: returns only the
records contributed by this call, together with the final supply state. -/
def collectNode (root : List String) (node : FSNode) (dirPath : List String)
    (ctr : Nat) : List DirectoryRecord × Nat :=
  match node with
  | .dir _ children => collectLoop root children dirPath ctr
  | _ => ([], ctr)
termination_by structural node

/-- Accumulator-free form of getAllDirectoriesLoop. -/
def collectLoop (root : List String) (entries : List (String × FSNode))
    (dirPath : List String) (ctr : Nat) : List DirectoryRecord × Nat :=
  match entries with
  | [] => ([], ctr)
  | (file, child) :: rest =>
    let filePath := dirPath ++ [file]
    if child.isDirectory then
      if jsStartsWith file "." || IGNORED_DIRECTORIES.contains file then
        collectLoop root rest dirPath ctr
      else
        let directoryAbsolutePath :=
          if child.isSymbolicLink then realpathOf child filePath else filePath
        let directoryMetadata :=
          mkDirectoryMetadata ctr file (pathRelative root directoryAbsolutePath)
            directoryAbsolutePath child.statMeta
        let p := collectNode root child directoryAbsolutePath (ctr + 1)
        let q := collectLoop root rest dirPath p.2
        (directoryMetadata :: p.1 ++ q.1, q.2)
    else
      collectLoop root rest dirPath ctr
termination_by structural entries

end

mutual

/-- getAllDirectoriesRecursively with the symlink-resolution branch removed:
the entry path itself is always used as the absolute path. -/
def getAllDirectoriesRecursivelyNoSym (root : List String) (node : FSNode)
    (dirPath : List String) (acc : List DirectoryRecord) (ctr : Nat) :
    List DirectoryRecord × Nat :=
  match node with
  | .dir _ children => getAllDirectoriesLoopNoSym root children dirPath acc ctr
  | _ => (acc, ctr)
termination_by structural node

/-- The entry loop with the symlink-resolution branch removed. -/
def getAllDirectoriesLoopNoSym (root : List String) (entries : List (String × FSNode))
    (dirPath : List String) (acc : List DirectoryRecord) (ctr : Nat) :
    List DirectoryRecord × Nat :=
  match entries with
  | [] => (acc, ctr)
  | (file, child) :: rest =>
    let filePath := dirPath ++ [file]
    if child.isDirectory then
      if jsStartsWith file "." || IGNORED_DIRECTORIES.contains file then
        getAllDirectoriesLoopNoSym root rest dirPath acc ctr
      else
        let directoryMetadata :=
          mkDirectoryMetadata ctr file (pathRelative root filePath) filePath
            child.statMeta
        let p := getAllDirectoriesRecursivelyNoSym root child filePath
          (acc ++ [directoryMetadata]) (ctr + 1)
        getAllDirectoriesLoopNoSym root rest dirPath p.1 p.2
    else
      getAllDirectoriesLoopNoSym root rest dirPath acc ctr
termination_by structural entries

end

mutual

/-- Well-formedness of a filesystem tree: the children of every directory
have pairwise distinct names, as readdir listings always do. -/
def FSNode.wfb : FSNode → Bool
  | .dir _ children => decide ((children.map Prod.fst).Nodup) && FSNode.wfbEntries children
  | _ => true
termination_by structural n => n

/-- Well-formedness of a child list: every child subtree is well-formed. -/
def FSNode.wfbEntries : List (String × FSNode) → Bool
  | [] => true
  | (_, child) :: rest => child.wfb && FSNode.wfbEntries rest
termination_by structural es => es

end

mutual

/-- A plain tree: no symbolic links anywhere, and no entry name that is
hidden (leading dot) or in the ignore set. -/
def FSNode.plainb : FSNode → Bool
  | .dir _ children => FSNode.plainbEntries children
  | .file _ => true
  | .symlink _ _ => false
termination_by structural n => n

/-- Plainness of a child list: every name is eligible and every child
subtree is plain. -/
def FSNode.plainbEntries : List (String × FSNode) → Bool
  | [] => true
  | (nm, child) :: rest =>
    !(jsStartsWith nm "." || IGNORED_DIRECTORIES.contains nm) &&
      child.plainb && FSNode.plainbEntries rest
termination_by structural es => es

end

mutual

/-- The number of directories in the tree strictly below the given node
(the node itself is not counted, matching the scan, which never records the
scan root). -/
def countDirs : FSNode → Nat
  | .dir _ children => countDirsEntries children
  | _ => 0
termination_by structural n => n

/-- Directory count contributed by a child list. -/
def countDirsEntries : List (String × FSNode) → Nat
  | [] => 0
  | (_, child) :: rest =>
    (if child.isDirectory then 1 + countDirs child else 0) + countDirsEntries rest
termination_by structural es => es

end

/-- String form of an absolute segment path (POSIX rendering). -/
def renderAbsolute (p : List String) : String := "/" ++ String.intercalate "/" p

/-- String form of a relative segment path. -/
def renderRelative (p : List String) : String := String.intercalate "/" p

/-- The fixed CSV header line written at src/index.js line 174. -/
def csvHeader : String :=
  "uuid,name,relative_path,absolute_path,last_accessed,last_modified,owner,group,permissions\n"

/-- One CSV data line (src/index.js line 179): the nine field values joined
by plain commas, with no quoting or escaping applied to any of them. -/
def csvLine (r : DirectoryRecord) : String :=
  toString r.uuid ++ "," ++ r.name ++ "," ++ renderRelative r.relative_path ++ "," ++
    renderAbsolute r.absolute_path ++ "," ++ r.last_accessed ++ "," ++
    r.last_modified ++ "," ++ toString r.owner ++ "," ++ toString r.group ++ "," ++
    r.permissions ++ "\n"

/-- The sequence of strings pushed to the CSV write stream: the header
first, then one line per record in collection order. -/
def csvWrites (rs : List DirectoryRecord) : List String :=
  csvHeader :: rs.map csvLine

/-- The total CSV text appended to the file by one run. -/
def csvContent (rs : List DirectoryRecord) : String :=
  String.join (csvWrites rs)

/-- Hexadecimal digit character for one value below 16. -/
def hexDigit (n : Nat) : Char :=
  if n < 10 then Char.ofNat (48 + n) else Char.ofNat (87 + n)

/-- JSON escaping of one character, as JSON.stringify performs it on the
ASCII range: quote, backslash and control characters are escaped, anything
else is kept verbatim. -/
def jsonEscapeChar (c : Char) : String :=
  if c = '"' then "\\\""
  else if c = '\\' then "\\\\"
  else if c = '\n' then "\\n"
  else if c = '\r' then "\\r"
  else if c = '\t' then "\\t"
  else if c = '\x08' then "\\b"
  else if c = '\x0c' then "\\f"
  else if c.toNat < 32 then
    "\\u00" ++ String.mk [hexDigit (c.toNat / 16), hexDigit (c.toNat % 16)]
  else String.mk [c]

/-- A JSON string literal. -/
def jsonStringLit (s : String) : String :=
  "\"" ++ String.join (s.data.map jsonEscapeChar) ++ "\""

/-- One array element of JSON.stringify([...directories], null, 2): the
record object, pretty-printed with two-space indentation, keys in the
insertion order of the object literal. -/
def recordJson (r : DirectoryRecord) : String :=
  "  \x7b\n    \"uuid\": " ++ jsonStringLit (toString r.uuid) ++
    ",\n    \"name\": " ++ jsonStringLit r.name ++
    ",\n    \"relative_path\": " ++ jsonStringLit (renderRelative r.relative_path) ++
    ",\n    \"absolute_path\": " ++ jsonStringLit (renderAbsolute r.absolute_path) ++
    ",\n    \"last_accessed\": " ++ jsonStringLit r.last_accessed ++
    ",\n    \"last_modified\": " ++ jsonStringLit r.last_modified ++
    ",\n    \"owner\": " ++ toString r.owner ++
    ",\n    \"group\": " ++ toString r.group ++
    ",\n    \"permissions\": " ++ jsonStringLit r.permissions ++
    "\n  \x7d"

/-- JSON.stringify([...directories], null, 2): the pretty-printed array of
the record objects, in collection order. -/
def jsonContent (rs : List DirectoryRecord) : String :=
  match rs with
  | [] => "[]"
  | _ => "[\n" ++ String.intercalate ",\n" (rs.map recordJson) ++ "\n]"

/-- The computed CSV file name (src/index.js line 157, with the data
directory rendered as a plain name component). -/
def csvFileName (timestamp : String) : String :=
  "data/directories_" ++ timestamp ++ ".csv"

/-- The computed JSON file name (src/index.js line 164). -/
def jsonFileName (timestamp : String) : String :=
  "data/directories_" ++ timestamp ++ ".json"

/-- The file store the writer acts on: a partial map from file names to
their contents. -/
def FileStore : Type := String → Option String

/-- Store update at one file name. -/
def setFile (store : FileStore) (name content : String) : FileStore :=
  fun p => if p = name then some content else store p

/-- writeDirectoriesToFile(directories, timestamp) of src/index.js lines
151-192, as its effect on the file store.  The CSV stream is opened with
flags 'a', so its writes append after whatever the file already holds (an
absent file counts as empty); fs.promises.writeFile then stores the JSON
text, replacing any previous contents of that file. -/
def writeDirectoriesToFile (store : FileStore) (directories : List DirectoryRecord)
    (timestamp : String) : FileStore :=
  let csvFilePath := csvFileName timestamp
  let jsonFilePath := jsonFileName timestamp
  let appended := setFile store csvFilePath
    ((store csvFilePath).getD "" ++ csvContent directories)
  setFile appended jsonFilePath (jsonContent directories)

/-! Basic facts about lstat kinds and paths. -/

theorem isDirectory_eq_dir {node : FSNode} (h : node.isDirectory = true) :
    ∃ m cs, node = .dir m cs := by
  cases node with
  | dir m cs => exact ⟨m, cs, rfl⟩
  | file m => simp [FSNode.isDirectory] at h
  | symlink m t => simp [FSNode.isDirectory] at h

theorem isSymbolicLink_eq_false_of_isDirectory {node : FSNode}
    (h : node.isDirectory = true) : node.isSymbolicLink = false := by
  obtain ⟨m, cs, rfl⟩ := isDirectory_eq_dir h
  rfl

theorem pathRelative_append (root q : List String) :
    pathRelative root (root ++ q) = q := by
  induction root with
  | nil => simp [pathRelative]
  | cons a f ih => simpa [pathRelative] using ih

/-- Mutual induction over a node and a child list, derived from the nested
recursor of FSNode. -/
theorem fsRecPair {P : FSNode → Prop} {Q : List (String × FSNode) → Prop}
    (hf : ∀ m, P (.file m)) (hs : ∀ m t, P (.symlink m t))
    (hd : ∀ m cs, Q cs → P (.dir m cs))
    (hn : Q []) (hc : ∀ nm c rest, P c → Q rest → Q ((nm, c) :: rest)) :
    (∀ t, P t) ∧ (∀ cs, Q cs) := by
  have pall : ∀ t, P t :=
    @FSNode.rec P Q (fun pr => P pr.2) hf hs hd hn
      (fun head tl h1 h2 =>
        match head, h1 with
        | (a, b), h1 => hc a b tl h1 h2)
      (fun _ _ h => h)
  refine ⟨pall, fun cs => ?_⟩
  induction cs with
  | nil => exact hn
  | cons head tl ih =>
    match head with
    | (a, b) => exact hc a b tl (pall b) ih

/-! One-step unfolding equations for the scan functions, phrased per entry
kind so that later inductions never have to look inside the definitions. -/

theorem collectNode_dir (root : List String) (m : StatMeta)
    (cs : List (String × FSNode)) (d : List String) (ctr : Nat) :
    collectNode root (.dir m cs) d ctr = collectLoop root cs d ctr := rfl

theorem collectNode_file (root : List String) (m : StatMeta) (d : List String)
    (ctr : Nat) : collectNode root (.file m) d ctr = ([], ctr) := rfl

theorem collectNode_symlink (root : List String) (m : StatMeta) (t : List String)
    (d : List String) (ctr : Nat) :
    collectNode root (.symlink m t) d ctr = ([], ctr) := rfl

theorem collectLoop_nil (root : List String) (d : List String) (ctr : Nat) :
    collectLoop root [] d ctr = ([], ctr) := rfl

theorem collectLoop_cons_file (root : List String) (nm : String) (m : StatMeta)
    (rest : List (String × FSNode)) (d : List String) (ctr : Nat) :
    collectLoop root ((nm, .file m) :: rest) d ctr = collectLoop root rest d ctr := rfl

theorem collectLoop_cons_symlink (root : List String) (nm : String) (m : StatMeta)
    (t : List String) (rest : List (String × FSNode)) (d : List String) (ctr : Nat) :
    collectLoop root ((nm, .symlink m t) :: rest) d ctr = collectLoop root rest d ctr := rfl

theorem collectLoop_cons_skip (root : List String) (nm : String) (m : StatMeta)
    (cs : List (String × FSNode)) (rest : List (String × FSNode)) (d : List String)
    (ctr : Nat) (hig : (jsStartsWith nm "." || IGNORED_DIRECTORIES.contains nm) = true) :
    collectLoop root ((nm, .dir m cs) :: rest) d ctr = collectLoop root rest d ctr := by
  simp only [collectLoop, FSNode.isDirectory, hig]
  rfl

theorem collectLoop_cons_dir (root : List String) (nm : String) (m : StatMeta)
    (cs : List (String × FSNode)) (rest : List (String × FSNode)) (d : List String)
    (ctr : Nat) (hig : (jsStartsWith nm "." || IGNORED_DIRECTORIES.contains nm) = false) :
    collectLoop root ((nm, .dir m cs) :: rest) d ctr =
      (mkDirectoryMetadata ctr nm (pathRelative root (d ++ [nm])) (d ++ [nm]) m ::
        (collectLoop root cs (d ++ [nm]) (ctr + 1)).1 ++
        (collectLoop root rest d (collectLoop root cs (d ++ [nm]) (ctr + 1)).2).1,
       (collectLoop root rest d (collectLoop root cs (d ++ [nm]) (ctr + 1)).2).2) := by
  simp only [collectLoop, collectNode, FSNode.isDirectory, hig]
  rfl

theorem loop_nil (root : List String) (d : List String) (acc : List DirectoryRecord)
    (ctr : Nat) : getAllDirectoriesLoop root [] d acc ctr = (acc, ctr) := rfl

theorem loop_cons_file (root : List String) (nm : String) (m : StatMeta)
    (rest : List (String × FSNode)) (d : List String) (acc : List DirectoryRecord)
    (ctr : Nat) :
    getAllDirectoriesLoop root ((nm, .file m) :: rest) d acc ctr =
      getAllDirectoriesLoop root rest d acc ctr := rfl

theorem loop_cons_symlink (root : List String) (nm : String) (m : StatMeta)
    (t : List String) (rest : List (String × FSNode)) (d : List String)
    (acc : List DirectoryRecord) (ctr : Nat) :
    getAllDirectoriesLoop root ((nm, .symlink m t) :: rest) d acc ctr =
      getAllDirectoriesLoop root rest d acc ctr := rfl

theorem loop_cons_skip (root : List String) (nm : String) (m : StatMeta)
    (cs : List (String × FSNode)) (rest : List (String × FSNode)) (d : List String)
    (acc : List DirectoryRecord) (ctr : Nat)
    (hig : (jsStartsWith nm "." || IGNORED_DIRECTORIES.contains nm) = true) :
    getAllDirectoriesLoop root ((nm, .dir m cs) :: rest) d acc ctr =
      getAllDirectoriesLoop root rest d acc ctr := by
  simp only [getAllDirectoriesLoop, FSNode.isDirectory, hig]
  rfl

theorem loop_cons_dir (root : List String) (nm : String) (m : StatMeta)
    (cs : List (String × FSNode)) (rest : List (String × FSNode)) (d : List String)
    (acc : List DirectoryRecord) (ctr : Nat)
    (hig : (jsStartsWith nm "." || IGNORED_DIRECTORIES.contains nm) = false) :
    getAllDirectoriesLoop root ((nm, .dir m cs) :: rest) d acc ctr =
      getAllDirectoriesLoop root rest d
        (getAllDirectoriesRecursively root (.dir m cs) (d ++ [nm])
          (acc ++ [mkDirectoryMetadata ctr nm (pathRelative root (d ++ [nm]))
            (d ++ [nm]) m]) (ctr + 1)).1
        (getAllDirectoriesRecursively root (.dir m cs) (d ++ [nm])
          (acc ++ [mkDirectoryMetadata ctr nm (pathRelative root (d ++ [nm]))
            (d ++ [nm]) m]) (ctr + 1)).2 := by
  simp only [getAllDirectoriesLoop, FSNode.isDirectory, hig]
  rfl

theorem recursively_dir (root : List String) (m : StatMeta)
    (cs : List (String × FSNode)) (d : List String) (acc : List DirectoryRecord)
    (ctr : Nat) :
    getAllDirectoriesRecursively root (.dir m cs) d acc ctr =
      getAllDirectoriesLoop root cs d acc ctr := rfl

/-! The accumulator bridge: the faithful scan, which threads the shared
Set through the recursion, equals the accumulator-free collect functions
with the accumulated records appended in front. -/

theorem scan_eq_collect_pair (root : List String) :
    (∀ node, ∀ d acc ctr,
      getAllDirectoriesRecursively root node d acc ctr =
        (acc ++ (collectNode root node d ctr).1, (collectNode root node d ctr).2)) ∧
    (∀ entries, ∀ d acc ctr,
      getAllDirectoriesLoop root entries d acc ctr =
        (acc ++ (collectLoop root entries d ctr).1, (collectLoop root entries d ctr).2)) := by
  refine fsRecPair ?_ ?_ ?_ ?_ ?_
  · intro m d acc ctr
    simp [getAllDirectoriesRecursively, collectNode]
  · intro m t d acc ctr
    simp [getAllDirectoriesRecursively, collectNode]
  · intro m cs ih d acc ctr
    simpa [recursively_dir, collectNode_dir] using ih d acc ctr
  · intro d acc ctr
    simp [loop_nil, collectLoop_nil]
  · intro nm c rest ihc ihrest d acc ctr
    cases c with
    | file m =>
      rw [loop_cons_file, collectLoop_cons_file]
      exact ihrest d acc ctr
    | symlink m t =>
      rw [loop_cons_symlink, collectLoop_cons_symlink]
      exact ihrest d acc ctr
    | dir m cs =>
      by_cases hig : (jsStartsWith nm "." || IGNORED_DIRECTORIES.contains nm) = true
      · rw [loop_cons_skip root nm m cs rest d acc ctr hig,
          collectLoop_cons_skip root nm m cs rest d ctr hig]
        exact ihrest d acc ctr
      · have hig' : (jsStartsWith nm "." || IGNORED_DIRECTORIES.contains nm) = false := by
          simpa using hig
        rw [loop_cons_dir root nm m cs rest d acc ctr hig',
          collectLoop_cons_dir root nm m cs rest d ctr hig']
        rw [ihc (d ++ [nm])
          (acc ++ [mkDirectoryMetadata ctr nm (pathRelative root (d ++ [nm])) (d ++ [nm]) m])
          (ctr + 1)]
        rw [ihrest d
          ((acc ++ [mkDirectoryMetadata ctr nm (pathRelative root (d ++ [nm])) (d ++ [nm]) m]) ++
            (collectNode root (.dir m cs) (d ++ [nm]) (ctr + 1)).1)
          (collectNode root (.dir m cs) (d ++ [nm]) (ctr + 1)).2]
        simp [collectNode_dir]

theorem getAllDirectoriesRecursively_eq_collect (root : List String) (node : FSNode)
    (d : List String) (acc : List DirectoryRecord) (ctr : Nat) :
    getAllDirectoriesRecursively root node d acc ctr =
      (acc ++ (collectNode root node d ctr).1, (collectNode root node d ctr).2) :=
  (scan_eq_collect_pair root).1 node d acc ctr

theorem scanRun_eq_collect (root : List String) (t : FSNode) :
    scanRun root t = (collectNode root t root 0).1 := by
  simp [scanRun, getAllDirectoriesRecursively_eq_collect]

/-! Helper facts about snoc-prefixes of segment paths. -/

theorem snoc_isPrefix_length_lt {d : List String} {x : String} {p : List String}
    (h : (d ++ [x]) <+: p) : d.length < p.length := by
  have := h.length_le
  simpa using this

theorem snoc_prefix_unique {d : List String} {x y : String} {p : List String}
    (hx : (d ++ [x]) <+: p) (hy : (d ++ [y]) <+: p) : x = y := by
  have hlen : (d ++ [x]).length = (d ++ [y]).length := by simp
  have h1 : (d ++ [x]) <+: (d ++ [y]) :=
    List.prefix_of_prefix_length_le hx hy (le_of_eq hlen)
  have h2 : (d ++ [x]) = (d ++ [y]) := h1.eq_of_length hlen
  have := List.append_cancel_left h2
  simpa using this

/-! Shape of the produced records: every record's absolute path extends the
directory being listed by the name of one of its entries, and the relative
path is path.relative of the scan root and the absolute path. -/

theorem collect_shape_pair (root : List String) :
    (∀ node, ∀ d ctr r, r ∈ (collectNode root node d ctr).1 →
      ∃ nm, (d ++ [nm]) <+: r.absolute_path) ∧
    (∀ cs, ∀ d ctr r, r ∈ (collectLoop root cs d ctr).1 →
      ∃ nm, nm ∈ cs.map Prod.fst ∧ (d ++ [nm]) <+: r.absolute_path) := by
  refine fsRecPair ?_ ?_ ?_ ?_ ?_
  · intro m d ctr r hr
    simp [collectNode_file] at hr
  · intro m t d ctr r hr
    simp [collectNode_symlink] at hr
  · intro m cs ih d ctr r hr
    rw [collectNode_dir] at hr
    obtain ⟨nm, _, hp⟩ := ih d ctr r hr
    exact ⟨nm, hp⟩
  · intro d ctr r hr
    simp [collectLoop_nil] at hr
  · intro nm c rest ihc ihrest d ctr r hr
    cases c with
    | file m =>
      rw [collectLoop_cons_file] at hr
      obtain ⟨nm', hmem, hp⟩ := ihrest d ctr r hr
      exact ⟨nm', by simp [hmem], hp⟩
    | symlink m t =>
      rw [collectLoop_cons_symlink] at hr
      obtain ⟨nm', hmem, hp⟩ := ihrest d ctr r hr
      exact ⟨nm', by simp [hmem], hp⟩
    | dir m cs =>
      by_cases hig : (jsStartsWith nm "." || IGNORED_DIRECTORIES.contains nm) = true
      · rw [collectLoop_cons_skip root nm m cs rest d ctr hig] at hr
        obtain ⟨nm', hmem, hp⟩ := ihrest d ctr r hr
        exact ⟨nm', by simp [hmem], hp⟩
      · have hig' : (jsStartsWith nm "." || IGNORED_DIRECTORIES.contains nm) = false := by
          simpa using hig
        rw [collectLoop_cons_dir root nm m cs rest d ctr hig'] at hr
        rcases List.mem_cons.mp hr with hr | hr
        · subst hr
          exact ⟨nm, by simp, by simp [mkDirectoryMetadata]⟩
        · rcases List.mem_append.mp hr with hr | hr
          · obtain ⟨nm', hp⟩ := ihc (d ++ [nm]) (ctr + 1) r (by
              rw [collectNode_dir]; exact hr)
            refine ⟨nm, by simp, ?_⟩
            exact List.IsPrefix.trans (by simp) hp
          · obtain ⟨nm', hmem, hp⟩ :=
              ihrest d (collectLoop root cs (d ++ [nm]) (ctr + 1)).2 r hr
            exact ⟨nm', by simp [hmem], hp⟩

theorem collectNode_shape (root : List String) (node : FSNode) (d : List String)
    (ctr : Nat) (r : DirectoryRecord) (hr : r ∈ (collectNode root node d ctr).1) :
    ∃ nm, (d ++ [nm]) <+: r.absolute_path :=
  (collect_shape_pair root).1 node d ctr r hr

theorem collectLoop_shape (root : List String) (cs : List (String × FSNode))
    (d : List String) (ctr : Nat) (r : DirectoryRecord)
    (hr : r ∈ (collectLoop root cs d ctr).1) :
    ∃ nm, nm ∈ cs.map Prod.fst ∧ (d ++ [nm]) <+: r.absolute_path :=
  (collect_shape_pair root).2 cs d ctr r hr

theorem collect_rel_pair (root : List String) :
    (∀ node, ∀ d ctr r, r ∈ (collectNode root node d ctr).1 →
      r.relative_path = pathRelative root r.absolute_path) ∧
    (∀ cs, ∀ d ctr r, r ∈ (collectLoop root cs d ctr).1 →
      r.relative_path = pathRelative root r.absolute_path) := by
  refine fsRecPair ?_ ?_ ?_ ?_ ?_
  · intro m d ctr r hr
    simp [collectNode_file] at hr
  · intro m t d ctr r hr
    simp [collectNode_symlink] at hr
  · intro m cs ih d ctr r hr
    rw [collectNode_dir] at hr
    exact ih d ctr r hr
  · intro d ctr r hr
    simp [collectLoop_nil] at hr
  · intro nm c rest ihc ihrest d ctr r hr
    cases c with
    | file m =>
      rw [collectLoop_cons_file] at hr
      exact ihrest d ctr r hr
    | symlink m t =>
      rw [collectLoop_cons_symlink] at hr
      exact ihrest d ctr r hr
    | dir m cs =>
      by_cases hig : (jsStartsWith nm "." || IGNORED_DIRECTORIES.contains nm) = true
      · rw [collectLoop_cons_skip root nm m cs rest d ctr hig] at hr
        exact ihrest d ctr r hr
      · have hig' : (jsStartsWith nm "." || IGNORED_DIRECTORIES.contains nm) = false := by
          simpa using hig
        rw [collectLoop_cons_dir root nm m cs rest d ctr hig'] at hr
        rcases List.mem_cons.mp hr with hr | hr
        · subst hr
          simp [mkDirectoryMetadata]
        · rcases List.mem_append.mp hr with hr | hr
          · exact ihc (d ++ [nm]) (ctr + 1) r (by rw [collectNode_dir]; exact hr)
          · exact ihrest d (collectLoop root cs (d ++ [nm]) (ctr + 1)).2 r hr

/-! The fresh-identifier supply: the scan draws one identifier per record,
so the identifiers of the produced records are exactly the consecutive
values from the starting state of the supply. -/

theorem collect_uuid_pair (root : List String) :
    (∀ node, ∀ d ctr,
      (collectNode root node d ctr).2 = ctr + (collectNode root node d ctr).1.length ∧
      (collectNode root node d ctr).1.map DirectoryRecord.uuid =
        List.range' ctr (collectNode root node d ctr).1.length) ∧
    (∀ cs, ∀ d ctr,
      (collectLoop root cs d ctr).2 = ctr + (collectLoop root cs d ctr).1.length ∧
      (collectLoop root cs d ctr).1.map DirectoryRecord.uuid =
        List.range' ctr (collectLoop root cs d ctr).1.length) := by
  refine fsRecPair ?_ ?_ ?_ ?_ ?_
  · intro m d ctr
    simp [collectNode_file]
  · intro m t d ctr
    simp [collectNode_symlink]
  · intro m cs ih d ctr
    rw [collectNode_dir]
    exact ih d ctr
  · intro d ctr
    simp [collectLoop_nil]
  · intro nm c rest ihc ihrest d ctr
    cases c with
    | file m =>
      rw [collectLoop_cons_file]
      exact ihrest d ctr
    | symlink m t =>
      rw [collectLoop_cons_symlink]
      exact ihrest d ctr
    | dir m cs =>
      by_cases hig : (jsStartsWith nm "." || IGNORED_DIRECTORIES.contains nm) = true
      · rw [collectLoop_cons_skip root nm m cs rest d ctr hig]
        exact ihrest d ctr
      · have hig' : (jsStartsWith nm "." || IGNORED_DIRECTORIES.contains nm) = false := by
          simpa using hig
        rw [collectLoop_cons_dir root nm m cs rest d ctr hig']
        have hc := ihc (d ++ [nm]) (ctr + 1)
        rw [collectNode_dir] at hc
        have hr := ihrest d (collectLoop root cs (d ++ [nm]) (ctr + 1)).2
        constructor
        · simp only [List.length_cons, List.length_append]
          rw [hr.1, hc.1]
          omega
        · simp only [List.map_cons, List.map_append, mkDirectoryMetadata]
          rw [hc.2, hr.2, hc.1]
          simp only [List.length_cons, List.length_append]
          rw [List.cons_append, List.range'_append_1, ← List.range'_succ]
          congr 1
          omega

/-! Distinctness of absolute paths.  Well-formedness (distinct sibling
names) makes every visited directory's path unique, because the scan never
leaves the subtree below the path it joins for each entry. -/

theorem wfb_dir_elim {m : StatMeta} {cs : List (String × FSNode)}
    (h : FSNode.wfb (.dir m cs) = true) :
    (cs.map Prod.fst).Nodup ∧ FSNode.wfbEntries cs = true := by
  simpa [FSNode.wfb] using h

theorem wfbEntries_cons_elim {nm : String} {c : FSNode}
    {rest : List (String × FSNode)}
    (h : FSNode.wfbEntries ((nm, c) :: rest) = true) :
    c.wfb = true ∧ FSNode.wfbEntries rest = true := by
  simpa [FSNode.wfbEntries] using h

theorem collect_nodupAbs_pair (root : List String) :
    (∀ node, node.wfb = true → ∀ d ctr,
      ((collectNode root node d ctr).1.map DirectoryRecord.absolute_path).Nodup) ∧
    (∀ cs, (cs.map Prod.fst).Nodup → FSNode.wfbEntries cs = true → ∀ d ctr,
      ((collectLoop root cs d ctr).1.map DirectoryRecord.absolute_path).Nodup) := by
  refine fsRecPair ?_ ?_ ?_ ?_ ?_
  · intro m _ d ctr
    simp [collectNode_file]
  · intro m t _ d ctr
    simp [collectNode_symlink]
  · intro m cs ih hwf d ctr
    rw [collectNode_dir]
    exact ih (wfb_dir_elim hwf).1 (wfb_dir_elim hwf).2 d ctr
  · intro _ _ d ctr
    simp [collectLoop_nil]
  · intro nm c rest ihc ihrest hnodup hwfe d ctr
    have hwc := (wfbEntries_cons_elim hwfe).1
    have hwr := (wfbEntries_cons_elim hwfe).2
    have hnm : nm ∉ rest.map Prod.fst := (List.nodup_cons.mp (by simpa using hnodup)).1
    have hnr : (rest.map Prod.fst).Nodup := (List.nodup_cons.mp (by simpa using hnodup)).2
    cases c with
    | file m =>
      rw [collectLoop_cons_file]
      exact ihrest hnr hwr d ctr
    | symlink m t =>
      rw [collectLoop_cons_symlink]
      exact ihrest hnr hwr d ctr
    | dir m cs =>
      by_cases hig : (jsStartsWith nm "." || IGNORED_DIRECTORIES.contains nm) = true
      · rw [collectLoop_cons_skip root nm m cs rest d ctr hig]
        exact ihrest hnr hwr d ctr
      · have hig' : (jsStartsWith nm "." || IGNORED_DIRECTORIES.contains nm) = false := by
          simpa using hig
        rw [collectLoop_cons_dir root nm m cs rest d ctr hig']
        simp only [List.map_append, List.map_cons, mkDirectoryMetadata]
        rw [List.nodup_append]
        refine ⟨?_, ?_, ?_⟩
        · rw [List.nodup_cons]
          constructor
          · intro hmem
            obtain ⟨r, hr, habs⟩ := List.mem_map.mp hmem
            obtain ⟨n', hp⟩ := collectNode_shape root (.dir m cs) (d ++ [nm]) (ctr + 1) r
              (by rw [collectNode_dir]; exact hr)
            have hlt := snoc_isPrefix_length_lt hp
            rw [habs] at hlt
            simp at hlt
          · have := ihc hwc (d ++ [nm]) (ctr + 1)
            rw [collectNode_dir] at this
            exact this
        · exact ihrest hnr hwr d (collectLoop root cs (d ++ [nm]) (ctr + 1)).2
        · intro a ha hb
          obtain ⟨s, hs, hsabs⟩ := List.mem_map.mp hb
          obtain ⟨n2, hn2, hp2⟩ :=
            collectLoop_shape root rest d (collectLoop root cs (d ++ [nm]) (ctr + 1)).2 s hs
          rcases List.mem_cons.mp ha with ha | ha
          · subst ha
            rw [hsabs] at hp2
            have : n2 = nm := snoc_prefix_unique hp2 List.prefix_rfl
            exact hnm (this ▸ hn2)
          · obtain ⟨r, hr, hrabs⟩ := List.mem_map.mp ha
            obtain ⟨n', hp⟩ := collectNode_shape root (.dir m cs) (d ++ [nm]) (ctr + 1) r
              (by rw [collectNode_dir]; exact hr)
            have h1 : (d ++ [nm]) <+: r.absolute_path :=
              List.IsPrefix.trans (List.prefix_append _ _) hp
            rw [hrabs] at h1
            rw [hsabs] at hp2
            have : n2 = nm := snoc_prefix_unique hp2 h1
            exact hnm (this ▸ hn2)

/-! Depth-first preorder: a record occurring later in the collection is
never a proper path-ancestor of an earlier record, i.e. every directory's
record is inserted before the records of all of its descendants. -/

theorem collect_preorder_pair (root : List String) :
    (∀ node, node.wfb = true → ∀ d ctr,
      (collectNode root node d ctr).1.Pairwise (fun a b =>
        ¬(b.absolute_path <+: a.absolute_path ∧ b.absolute_path ≠ a.absolute_path))) ∧
    (∀ cs, (cs.map Prod.fst).Nodup → FSNode.wfbEntries cs = true → ∀ d ctr,
      (collectLoop root cs d ctr).1.Pairwise (fun a b =>
        ¬(b.absolute_path <+: a.absolute_path ∧ b.absolute_path ≠ a.absolute_path))) := by
  refine fsRecPair ?_ ?_ ?_ ?_ ?_
  · intro m _ d ctr
    simp [collectNode_file]
  · intro m t _ d ctr
    simp [collectNode_symlink]
  · intro m cs ih hwf d ctr
    rw [collectNode_dir]
    exact ih (wfb_dir_elim hwf).1 (wfb_dir_elim hwf).2 d ctr
  · intro _ _ d ctr
    simp [collectLoop_nil]
  · intro nm c rest ihc ihrest hnodup hwfe d ctr
    have hwc := (wfbEntries_cons_elim hwfe).1
    have hwr := (wfbEntries_cons_elim hwfe).2
    have hnm : nm ∉ rest.map Prod.fst := (List.nodup_cons.mp (by simpa using hnodup)).1
    have hnr : (rest.map Prod.fst).Nodup := (List.nodup_cons.mp (by simpa using hnodup)).2
    cases c with
    | file m =>
      rw [collectLoop_cons_file]
      exact ihrest hnr hwr d ctr
    | symlink m t =>
      rw [collectLoop_cons_symlink]
      exact ihrest hnr hwr d ctr
    | dir m cs =>
      by_cases hig : (jsStartsWith nm "." || IGNORED_DIRECTORIES.contains nm) = true
      · rw [collectLoop_cons_skip root nm m cs rest d ctr hig]
        exact ihrest hnr hwr d ctr
      · have hig' : (jsStartsWith nm "." || IGNORED_DIRECTORIES.contains nm) = false := by
          simpa using hig
        rw [collectLoop_cons_dir root nm m cs rest d ctr hig']
        rw [List.pairwise_append]
        refine ⟨?_, ?_, ?_⟩
        · rw [List.pairwise_cons]
          constructor
          · intro b hb hcontra
            obtain ⟨n', hp⟩ := collectNode_shape root (.dir m cs) (d ++ [nm]) (ctr + 1) b
              (by rw [collectNode_dir]; exact hb)
            have hlt := snoc_isPrefix_length_lt hp
            have hle := hcontra.1.length_le
            simp only [mkDirectoryMetadata] at hle
            simp only [List.length_append, List.length_singleton] at hlt hle
            omega
          · have := ihc hwc (d ++ [nm]) (ctr + 1)
            rw [collectNode_dir] at this
            exact this
        · exact ihrest hnr hwr d (collectLoop root cs (d ++ [nm]) (ctr + 1)).2
        · intro a ha b hb hcontra
          obtain ⟨n2, hn2, hp2⟩ :=
            collectLoop_shape root rest d (collectLoop root cs (d ++ [nm]) (ctr + 1)).2 b hb
          rcases List.mem_cons.mp ha with ha | ha
          · subst ha
            simp only [mkDirectoryMetadata] at hcontra
            have hle := hcontra.1.length_le
            have hlt := snoc_isPrefix_length_lt hp2
            have hlen : b.absolute_path.length = (d ++ [nm]).length := by
              simp only [List.length_append, List.length_singleton] at hle hlt ⊢
              omega
            have heq : b.absolute_path = d ++ [nm] := hcontra.1.eq_of_length hlen
            exact hcontra.2 heq
          · obtain ⟨n', hp⟩ := collectNode_shape root (.dir m cs) (d ++ [nm]) (ctr + 1) a
              (by rw [collectNode_dir]; exact ha)
            have h1 : (d ++ [nm]) <+: a.absolute_path :=
              List.IsPrefix.trans (List.prefix_append _ _) hp
            have h2 : (d ++ [n2]) <+: a.absolute_path :=
              List.IsPrefix.trans hp2 hcontra.1
            have : n2 = nm := snoc_prefix_unique h2 h1
            exact hnm (this ▸ hn2)

/-! Completeness count: on a plain tree (no symlinks, no hidden or ignored
names) the scan records exactly the directories of the tree. -/

theorem plainbEntries_cons_elim {nm : String} {c : FSNode}
    {rest : List (String × FSNode)}
    (h : FSNode.plainbEntries ((nm, c) :: rest) = true) :
    (jsStartsWith nm "." || IGNORED_DIRECTORIES.contains nm) = false ∧
      c.plainb = true ∧ FSNode.plainbEntries rest = true := by
  have h' := h
  simp only [FSNode.plainbEntries, Bool.and_eq_true, Bool.not_eq_true'] at h'
  exact ⟨h'.1.1, h'.1.2, h'.2⟩

theorem collect_count_pair (root : List String) :
    (∀ node, node.plainb = true → ∀ d ctr,
      (collectNode root node d ctr).1.length = countDirs node) ∧
    (∀ cs, FSNode.plainbEntries cs = true → ∀ d ctr,
      (collectLoop root cs d ctr).1.length = countDirsEntries cs) := by
  refine fsRecPair ?_ ?_ ?_ ?_ ?_
  · intro m _ d ctr
    simp [collectNode_file, countDirs]
  · intro m t hp d ctr
    simp [FSNode.plainb] at hp
  · intro m cs ih hp d ctr
    rw [collectNode_dir]
    exact ih (by simpa [FSNode.plainb] using hp) d ctr
  · intro _ d ctr
    simp [collectLoop_nil, countDirsEntries]
  · intro nm c rest ihc ihrest hp d ctr
    obtain ⟨hig', hpc, hpr⟩ := plainbEntries_cons_elim hp
    cases c with
    | file m =>
      rw [collectLoop_cons_file]
      simpa [countDirsEntries, FSNode.isDirectory] using ihrest hpr d ctr
    | symlink m t =>
      simp [FSNode.plainb] at hpc
    | dir m cs =>
      rw [collectLoop_cons_dir root nm m cs rest d ctr hig']
      have h1 := ihc hpc (d ++ [nm]) (ctr + 1)
      rw [collectNode_dir] at h1
      have h2 := ihrest hpr d (collectLoop root cs (d ++ [nm]) (ctr + 1)).2
      have hcd : countDirsEntries ((nm, FSNode.dir m cs) :: rest) =
          (1 + countDirs (FSNode.dir m cs)) + countDirsEntries rest := rfl
      have hcd2 : countDirs (FSNode.dir m cs) = countDirsEntries cs := rfl
      rw [hcd, hcd2]
      rw [hcd2] at h1
      simp only [List.length_append, List.length_cons]
      omega

/-! The symlink-resolution branch is dead code: under lstat semantics an
entry is never both a directory and a symbolic link, so the scan computes
exactly what the branch-free variant computes. -/

theorem noSymLoop_nil (root : List String) (d : List String)
    (acc : List DirectoryRecord) (ctr : Nat) :
    getAllDirectoriesLoopNoSym root [] d acc ctr = (acc, ctr) := rfl

theorem noSymLoop_cons_file (root : List String) (nm : String) (m : StatMeta)
    (rest : List (String × FSNode)) (d : List String) (acc : List DirectoryRecord)
    (ctr : Nat) :
    getAllDirectoriesLoopNoSym root ((nm, .file m) :: rest) d acc ctr =
      getAllDirectoriesLoopNoSym root rest d acc ctr := rfl

theorem noSymLoop_cons_symlink (root : List String) (nm : String) (m : StatMeta)
    (t : List String) (rest : List (String × FSNode)) (d : List String)
    (acc : List DirectoryRecord) (ctr : Nat) :
    getAllDirectoriesLoopNoSym root ((nm, .symlink m t) :: rest) d acc ctr =
      getAllDirectoriesLoopNoSym root rest d acc ctr := rfl

theorem noSymLoop_cons_skip (root : List String) (nm : String) (m : StatMeta)
    (cs : List (String × FSNode)) (rest : List (String × FSNode)) (d : List String)
    (acc : List DirectoryRecord) (ctr : Nat)
    (hig : (jsStartsWith nm "." || IGNORED_DIRECTORIES.contains nm) = true) :
    getAllDirectoriesLoopNoSym root ((nm, .dir m cs) :: rest) d acc ctr =
      getAllDirectoriesLoopNoSym root rest d acc ctr := by
  simp only [getAllDirectoriesLoopNoSym, FSNode.isDirectory, hig]
  rfl

theorem noSymLoop_cons_dir (root : List String) (nm : String) (m : StatMeta)
    (cs : List (String × FSNode)) (rest : List (String × FSNode)) (d : List String)
    (acc : List DirectoryRecord) (ctr : Nat)
    (hig : (jsStartsWith nm "." || IGNORED_DIRECTORIES.contains nm) = false) :
    getAllDirectoriesLoopNoSym root ((nm, .dir m cs) :: rest) d acc ctr =
      getAllDirectoriesLoopNoSym root rest d
        (getAllDirectoriesRecursivelyNoSym root (.dir m cs) (d ++ [nm])
          (acc ++ [mkDirectoryMetadata ctr nm (pathRelative root (d ++ [nm]))
            (d ++ [nm]) m]) (ctr + 1)).1
        (getAllDirectoriesRecursivelyNoSym root (.dir m cs) (d ++ [nm])
          (acc ++ [mkDirectoryMetadata ctr nm (pathRelative root (d ++ [nm]))
            (d ++ [nm]) m]) (ctr + 1)).2 := by
  simp only [getAllDirectoriesLoopNoSym, FSNode.isDirectory, hig]
  rfl

theorem noSym_pair (root : List String) :
    (∀ node, ∀ d acc ctr,
      getAllDirectoriesRecursively root node d acc ctr =
        getAllDirectoriesRecursivelyNoSym root node d acc ctr) ∧
    (∀ cs, ∀ d acc ctr,
      getAllDirectoriesLoop root cs d acc ctr =
        getAllDirectoriesLoopNoSym root cs d acc ctr) := by
  refine fsRecPair ?_ ?_ ?_ ?_ ?_
  · intro m d acc ctr
    rfl
  · intro m t d acc ctr
    rfl
  · intro m cs ih d acc ctr
    exact ih d acc ctr
  · intro d acc ctr
    rfl
  · intro nm c rest ihc ihrest d acc ctr
    cases c with
    | file m =>
      rw [loop_cons_file, noSymLoop_cons_file]
      exact ihrest d acc ctr
    | symlink m t =>
      rw [loop_cons_symlink, noSymLoop_cons_symlink]
      exact ihrest d acc ctr
    | dir m cs =>
      by_cases hig : (jsStartsWith nm "." || IGNORED_DIRECTORIES.contains nm) = true
      · rw [loop_cons_skip root nm m cs rest d acc ctr hig,
          noSymLoop_cons_skip root nm m cs rest d acc ctr hig]
        exact ihrest d acc ctr
      · have hig' : (jsStartsWith nm "." || IGNORED_DIRECTORIES.contains nm) = false := by
          simpa using hig
        rw [loop_cons_dir root nm m cs rest d acc ctr hig',
          noSymLoop_cons_dir root nm m cs rest d acc ctr hig']
        rw [ihc (d ++ [nm])
          (acc ++ [mkDirectoryMetadata ctr nm (pathRelative root (d ++ [nm])) (d ++ [nm]) m])
          (ctr + 1)]
        exact ihrest d _ _

/-! Pruning: an entry whose name is hidden or ignored contributes nothing
at all, wherever it sits in a readdir listing - removing it from the
listing leaves the scan's behaviour unchanged. -/

theorem loop_skip_anywhere (root : List String) (nm : String) (child : FSNode)
    (hig : (jsStartsWith nm "." || IGNORED_DIRECTORIES.contains nm) = true) :
    ∀ (pre post : List (String × FSNode)) (d : List String)
      (acc : List DirectoryRecord) (ctr : Nat),
      getAllDirectoriesLoop root (pre ++ (nm, child) :: post) d acc ctr =
        getAllDirectoriesLoop root (pre ++ post) d acc ctr := by
  intro pre
  induction pre with
  | nil =>
    intro post d acc ctr
    rw [List.nil_append, List.nil_append]
    cases child with
    | file m => rw [loop_cons_file]
    | symlink m t => rw [loop_cons_symlink]
    | dir m cs => rw [loop_cons_skip root nm m cs post d acc ctr hig]
  | cons e pre ih =>
    intro post d acc ctr
    obtain ⟨enm, ec⟩ := e
    rw [List.cons_append, List.cons_append]
    cases ec with
    | file m =>
      rw [loop_cons_file, loop_cons_file]
      exact ih post d acc ctr
    | symlink m t =>
      rw [loop_cons_symlink, loop_cons_symlink]
      exact ih post d acc ctr
    | dir m cs =>
      by_cases h2 : (jsStartsWith enm "." || IGNORED_DIRECTORIES.contains enm) = true
      · rw [loop_cons_skip root enm m cs _ d acc ctr h2,
          loop_cons_skip root enm m cs _ d acc ctr h2]
        exact ih post d acc ctr
      · have h2' : (jsStartsWith enm "." || IGNORED_DIRECTORIES.contains enm) = false := by
          simpa using h2
        rw [loop_cons_dir root enm m cs _ d acc ctr h2',
          loop_cons_dir root enm m cs _ d acc ctr h2']
        exact ih post d _ _

/-! Writer facts. -/

theorem csvFileName_ne_jsonFileName (ts : String) : csvFileName ts ≠ jsonFileName ts := by
  intro h
  have hl := congrArg String.length h
  have h4 : ".csv".length = 4 := rfl
  have h5 : ".json".length = 5 := rfl
  simp only [csvFileName, jsonFileName, String.length_append, h4, h5] at hl
  omega

theorem writeDirectoriesToFile_effect (store : FileStore)
    (directories : List DirectoryRecord) (ts : String) :
    (writeDirectoriesToFile store directories ts) (csvFileName ts) =
      some ((store (csvFileName ts)).getD "" ++ csvContent directories) ∧
    (writeDirectoriesToFile store directories ts) (jsonFileName ts) =
      some (jsonContent directories) ∧
    (∀ p, p ≠ csvFileName ts → p ≠ jsonFileName ts →
      (writeDirectoriesToFile store directories ts) p = store p) := by
  refine ⟨?_, ?_, ?_⟩
  · simp [writeDirectoriesToFile, setFile, csvFileName_ne_jsonFileName ts]
  · simp [writeDirectoriesToFile, setFile]
  · intro p h1 h2
    simp [writeDirectoriesToFile, setFile, h1, h2]

/-! String-join bookkeeping for the CSV text. -/

theorem string_foldl_append (l : List String) :
    ∀ a b : String, l.foldl (· ++ ·) (a ++ b) = a ++ l.foldl (· ++ ·) b := by
  induction l with
  | nil => intro a b; rfl
  | cons c tl ih =>
    intro a b
    show tl.foldl (· ++ ·) (a ++ b ++ c) = a ++ tl.foldl (· ++ ·) (b ++ c)
    rw [String.append_assoc]
    exact ih a (b ++ c)

theorem string_join_cons (a : String) (l : List String) :
    String.join (a :: l) = a ++ String.join l :=
  calc String.join (a :: l) = l.foldl (· ++ ·) ("" ++ a) := rfl
    _ = l.foldl (· ++ ·) (a ++ "") := by
          rw [String.empty_append, String.append_empty]
    _ = a ++ l.foldl (· ++ ·) "" := string_foldl_append l a ""
    _ = a ++ String.join l := rfl


/-! Concrete instances used by witnesses and counterexamples. -/

/-- Sample lstat metadata for a directory: mode 0o40755 (a directory with
permission bits 755). -/
def sampleMeta : StatMeta :=
  { atime := "2023-04-23T11:39:10.000Z", mtime := "2023-04-23T11:46:20.000Z",
    uid := 1000, gid := 1000, mode := 16877 }

/-- Sample lstat metadata for a plain file: mode 0o100644. -/
def fileMeta : StatMeta :=
  { atime := "2023-04-23T11:39:10.000Z", mtime := "2023-04-23T11:46:20.000Z",
    uid := 1000, gid := 1000, mode := 33188 }

/-- A concrete Documents path. -/
def docRoot : List String := ["home", "user", "Documents"]

/-- The spec's concrete scenario tree: Documents/A, Documents/A/B,
Documents/.git and a plain file Documents/note.txt. -/
def exampleTree : FSNode :=
  .dir sampleMeta
    [("A", .dir sampleMeta [("B", .dir sampleMeta [])]),
     (".git", .dir sampleMeta []),
     ("note.txt", .file fileMeta)]

/-- A tree holding a real directory T and a symbolic link link whose
resolution target is the directory Documents/T. -/
def symTree : FSNode :=
  .dir sampleMeta
    [("T", .dir sampleMeta []),
     ("link", .symlink sampleMeta (docRoot ++ ["T"]))]

/-- A plain tree with exactly two directories, A and A/B. -/
def plainTree : FSNode :=
  .dir sampleMeta [("A", .dir sampleMeta [("B", .dir sampleMeta [])])]

/-- Comma-separated join of field values, as the spec describes a CSV data
row (written from the spec's words, to compare against csvLine). -/
def commaJoin : List String → String
  | [] => ""
  | [x] => x
  | x :: xs => x ++ "," ++ commaJoin xs

/-! Claim theorems. -/

/-- Claim C1 (code bug witness): a directory entry that is a symbolic link
whose target is a directory is skipped entirely by the scan: lstat reports
isDirectory() = false for the link, so the record-and-recurse branch is
never entered and no record with the link's resolution target is produced.
In the tree holding the real directory T and the symlink link resolving to
Documents/T, the run's only record is T's - nothing for link, although the
code's documentation says symlinked directories are supported. -/
theorem C1_symlink_entry_skipped :
    (scanRun docRoot symTree).map (fun r => (r.name, r.absolute_path)) =
      [("T", docRoot ++ ["T"])] := rfl

/-- Claim C2 (counterexample): the delimited-text header names the first
field uuid, not id, so the header row is not the one the claim states. -/
theorem C2_counterexample :
    csvContent [] ≠
      "id,name,relative_path,absolute_path,last_accessed,last_modified,owner,group,permissions\n" ∧
    csvContent [] =
      "uuid,name,relative_path,absolute_path,last_accessed,last_modified,owner,group,permissions\n" := by
  constructor
  · decide
  · rfl

/-- Claim C2 (amended): the CSV text is the fixed header row naming the
nine fields uuid, name, relative_path, absolute_path, last_accessed,
last_modified, owner, group, permissions in that order, followed by one
line per record joining the nine field values with bare commas and no
quoting or escaping: a record whose name contains a comma produces a line
holding nine commas (the eight separators plus the name's own, unescaped
one), so a delimiter-splitting reader sees ten fields instead of nine. -/
theorem C2_csv_layout :
    (∀ rs : List DirectoryRecord, csvContent rs =
      "uuid,name,relative_path,absolute_path,last_accessed,last_modified,owner,group,permissions\n" ++
        String.join (rs.map csvLine)) ∧
    (∀ r : DirectoryRecord, csvLine r = commaJoin
      [toString r.uuid, r.name, renderRelative r.relative_path,
       renderAbsolute r.absolute_path, r.last_accessed, r.last_modified,
       toString r.owner, toString r.group, r.permissions] ++ "\n") ∧
    ((csvLine (mkDirectoryMetadata 0 "a,b" ["rel"] ["abs"] sampleMeta)).data.filter
      (fun c => c = ',')).length = 9 := by
  refine ⟨?_, ?_, ?_⟩
  · intro rs
    exact string_join_cons _ _
  · intro r
    simp [csvLine, commaJoin, String.append_assoc]
  · rfl

/-- Claim C3 (counterexample): when a file already exists at the computed
JSON name, the writer replaces its contents: the old text OLD is destroyed
and the file afterwards holds exactly the new JSON document. -/
theorem C3_counterexample :
    (writeDirectoriesToFile
        (fun p => if p = jsonFileName "T" then some "OLD" else none) [] "T")
      (jsonFileName "T") = some "[]" ∧ ("OLD" : String) ≠ "[]" := by
  constructor
  · rfl
  · decide

/-- Claim C3 (amended): the CSV file is opened with an append-mode stream,
so existing contents are preserved and the run's CSV text goes after them;
the JSON file however is written with a truncating write that replaces any
existing contents at the computed JSON name; every other path of the file
store is untouched. -/
theorem C3_write_effects (store : FileStore) (dirs : List DirectoryRecord)
    (ts : String) :
    (writeDirectoriesToFile store dirs ts) (csvFileName ts) =
      some ((store (csvFileName ts)).getD "" ++ csvContent dirs) ∧
    (writeDirectoriesToFile store dirs ts) (jsonFileName ts) =
      some (jsonContent dirs) ∧
    (∀ p, p ≠ csvFileName ts → p ≠ jsonFileName ts →
      (writeDirectoriesToFile store dirs ts) p = store p) :=
  writeDirectoriesToFile_effect store dirs ts

/-- Witness for the amended claim C3 at a concrete store: an unrelated path
stays untouched and the CSV file receives the appended text. -/
theorem C3_witness :
    (writeDirectoriesToFile (fun _ => none) [] "T") "unrelated" = none ∧
    (writeDirectoriesToFile (fun _ => none) [] "T") (csvFileName "T") =
      some ((("" : String)) ++ csvContent []) :=
  ⟨(C3_write_effects (fun _ => none) [] "T").2.2 "unrelated" (by decide) (by decide),
   (C3_write_effects (fun _ => none) [] "T").1⟩

/-- Claim C4: in a well-formed tree (each readdir listing has pairwise
distinct entry names, as the filesystem guarantees) no two records of a run
share the same absolute_path value. -/
theorem C4_absolute_paths_nodup (root : List String) (t : FSNode)
    (h : t.wfb = true) :
    ((scanRun root t).map DirectoryRecord.absolute_path).Nodup := by
  rw [scanRun_eq_collect]
  exact (collect_nodupAbs_pair root).1 t h root 0

/-- Witness for claim C4 on the concrete scenario tree. -/
theorem C4_witness :
    FSNode.wfb exampleTree = true ∧
    ((scanRun docRoot exampleTree).map DirectoryRecord.absolute_path).Nodup :=
  ⟨rfl, C4_absolute_paths_nodup docRoot exampleTree rfl⟩

/-- Claim C5: an entry whose name starts with '.' or is in the ignore set
contributes no record and is never descended into: removing it from its
readdir listing leaves the scan's result unchanged, whatever the directory,
the position in the listing and the traversal state, so neither it nor any
of its descendants appears in the output. -/
theorem C5_ignored_entry_pruned (root : List String) (nm : String)
    (child : FSNode) (pre post : List (String × FSNode)) (d : List String)
    (acc : List DirectoryRecord) (ctr : Nat)
    (hig : (jsStartsWith nm "." || IGNORED_DIRECTORIES.contains nm) = true) :
    getAllDirectoriesLoop root (pre ++ (nm, child) :: post) d acc ctr =
      getAllDirectoriesLoop root (pre ++ post) d acc ctr :=
  loop_skip_anywhere root nm child hig pre post d acc ctr

/-- Witness for claim C5: a node_modules directory with a child is pruned
from a listing that also holds an ordinary directory A. -/
theorem C5_witness :
    (jsStartsWith "node_modules" "." ||
      IGNORED_DIRECTORIES.contains "node_modules") = true ∧
    getAllDirectoriesLoop docRoot
        [("A", .dir sampleMeta []),
         ("node_modules", .dir sampleMeta [("X", .dir sampleMeta [])])]
        docRoot [] 0 =
      getAllDirectoriesLoop docRoot [("A", .dir sampleMeta [])] docRoot [] 0 :=
  ⟨rfl, C5_ignored_entry_pruned docRoot "node_modules"
    (.dir sampleMeta [("X", .dir sampleMeta [])])
    [("A", .dir sampleMeta [])] [] docRoot [] 0 rfl⟩

/-- Claim C6: every record's relative_path is path.relative of the fixed
scan root and the record's absolute path, and joining the scan root with
the relative path yields the absolute path back. -/
theorem C6_relative_roundtrip (root : List String) (t : FSNode)
    (r : DirectoryRecord) (hr : r ∈ scanRun root t) :
    r.relative_path = pathRelative root r.absolute_path ∧
    pathJoin root r.relative_path = r.absolute_path := by
  rw [scanRun_eq_collect] at hr
  have hrel := (collect_rel_pair root).1 t root 0 r hr
  obtain ⟨nm, hp⟩ := collectNode_shape root t root 0 r hr
  have hroot : root <+: r.absolute_path :=
    List.IsPrefix.trans (List.prefix_append root [nm]) hp
  obtain ⟨q, hq⟩ := hroot
  refine ⟨hrel, ?_⟩
  rw [pathJoin, hrel, ← hq, pathRelative_append]

/-- Witness for claim C6 on the record of directory A in the concrete
scenario tree. -/
theorem C6_witness :
    mkDirectoryMetadata 0 "A" ["A"] (docRoot ++ ["A"]) sampleMeta ∈
      scanRun docRoot exampleTree ∧
    (mkDirectoryMetadata 0 "A" ["A"] (docRoot ++ ["A"]) sampleMeta).relative_path =
      pathRelative docRoot
        (mkDirectoryMetadata 0 "A" ["A"] (docRoot ++ ["A"]) sampleMeta).absolute_path ∧
    pathJoin docRoot
        (mkDirectoryMetadata 0 "A" ["A"] (docRoot ++ ["A"]) sampleMeta).relative_path =
      (mkDirectoryMetadata 0 "A" ["A"] (docRoot ++ ["A"]) sampleMeta).absolute_path := by
  have hmem : mkDirectoryMetadata 0 "A" ["A"] (docRoot ++ ["A"]) sampleMeta ∈
      scanRun docRoot exampleTree := List.mem_cons_self _ _
  have h := C6_relative_roundtrip docRoot exampleTree _ hmem
  exact ⟨hmem, h.1, h.2⟩

/-- Claim C7: on a plain root (no symlinks, no hidden or ignored names
anywhere) the scan yields exactly one record per directory of the tree,
the CSV stream receives exactly one line per record after its header, and
the JSON array holds one object per record; on the spec's concrete
scenario (A, A/B, .git, note.txt) the output is exactly the two records A
and A/B with relative paths "A" and "A/B". -/
theorem C7_completeness :
    (∀ (root : List String) (t : FSNode), t.plainb = true →
      (scanRun root t).length = countDirs t ∧
      (csvWrites (scanRun root t)).length = countDirs t + 1 ∧
      ((scanRun root t).map recordJson).length = countDirs t) ∧
    (scanRun docRoot exampleTree).map (fun r => (r.name, renderRelative r.relative_path)) =
      [("A", "A"), ("B", "A/B")] := by
  constructor
  · intro root t hp
    have h := (collect_count_pair root).1 t hp root 0
    rw [scanRun_eq_collect]
    refine ⟨h, ?_, ?_⟩
    · simp [csvWrites, h]
    · simp [h]
  · rfl

/-- Witness for claim C7 on a plain two-directory tree. -/
theorem C7_witness :
    FSNode.plainb plainTree = true ∧ countDirs plainTree = 2 ∧
    (scanRun docRoot plainTree).length = countDirs plainTree :=
  ⟨rfl, rfl, (C7_completeness.1 docRoot plainTree rfl).1⟩

/-- Claim C8: the identifiers of a run's records are exactly the first n
values of the fresh-identifier supply, in insertion order: each record
draws one identifier at creation and no value is ever assigned twice. -/
theorem C8_uuids_unique (root : List String) (t : FSNode) :
    (scanRun root t).map DirectoryRecord.uuid = List.range (scanRun root t).length ∧
    ((scanRun root t).map DirectoryRecord.uuid).Nodup := by
  rw [scanRun_eq_collect]
  have h := ((collect_uuid_pair root).1 t root 0).2
  constructor
  · rw [List.range_eq_range']
    exact h
  · rw [h]
    exact List.nodup_range' 0 _

/-- Claim C9: under lstat semantics no entry is both a directory and a
symbolic link, so the realpath call nested in the isDirectory() branch is
unreachable: the whole scan coincides with the variant whose symlink
branch is removed and whose records' absolute paths are always the joined
(unresolved) entry paths. -/
theorem C9_symlink_branch_dead :
    (∀ node : FSNode, (node.isDirectory && node.isSymbolicLink) = false) ∧
    (∀ (root : List String) (node : FSNode) (d : List String)
      (acc : List DirectoryRecord) (ctr : Nat),
      getAllDirectoriesRecursively root node d acc ctr =
        getAllDirectoriesRecursivelyNoSym root node d acc ctr) :=
  ⟨fun node => by cases node <;> rfl,
   fun root node d acc ctr => (noSym_pair root).1 node d acc ctr⟩

/-- Claim C10: records accumulate in depth-first preorder: in a
well-formed tree no later record's absolute path is a proper ancestor
(proper prefix) of an earlier record's, so every directory's record
precedes the records of all its descendants; and both serializations emit
the collection in exactly this insertion order: the CSV writes are the
header followed by the record lines in order, and the JSON document lists
the record objects in order. -/
theorem C10_preorder_and_order (root : List String) (t : FSNode)
    (h : t.wfb = true) :
    (scanRun root t).Pairwise (fun a b =>
      ¬(b.absolute_path <+: a.absolute_path ∧ b.absolute_path ≠ a.absolute_path)) ∧
    csvWrites (scanRun root t) = csvHeader :: (scanRun root t).map csvLine ∧
    (scanRun root t ≠ [] →
      jsonContent (scanRun root t) =
        "[\n" ++ String.intercalate ",\n" ((scanRun root t).map recordJson) ++ "\n]") := by
  refine ⟨?_, rfl, ?_⟩
  · rw [scanRun_eq_collect]
    exact (collect_preorder_pair root).1 t h root 0
  · intro hne
    cases hl : scanRun root t with
    | nil => exact absurd hl hne
    | cons a l => rfl

/-- Witness for claim C10 on the concrete scenario tree. -/
theorem C10_witness :
    FSNode.wfb exampleTree = true ∧
    (scanRun docRoot exampleTree).Pairwise (fun a b =>
      ¬(b.absolute_path <+: a.absolute_path ∧ b.absolute_path ≠ a.absolute_path)) ∧
    jsonContent (scanRun docRoot exampleTree) =
      "[\n" ++ String.intercalate ",\n"
        ((scanRun docRoot exampleTree).map recordJson) ++ "\n]" :=
  ⟨rfl, (C10_preorder_and_order docRoot exampleTree rfl).1,
    (C10_preorder_and_order docRoot exampleTree rfl).2.2 (List.cons_ne_nil _ _)⟩
